import Mathlib

/-!
Formal model of the papo Discord bot (src/bot.py): per-guild currency ledger
with audit log, give/take validation pipeline, in-memory cooldown gate,
bonk trigger log with streak/penalty thresholds, deduplicated Spotify-link
capture, and reminder-note extraction.  Database tables are modelled as
Lean lists/functions, asyncpg calls as pure state transformers, and the
event-loop clock as an integer timestamp.
-/

/-! ## Configuration constants (bot.py lines 20-35) -/

def TARGET_USER_ID : Int := 1028310674318839878

def AUTHORIZED_GIVER_ID : Int := 1422010902680567918

def ADMIN_USER_ID : Int := 939225086341296209

def MULTIPLE_OF : Int := 5

def JACKPOT : Int := 100

def GIVE_COOLDOWN_SECONDS : Int := 8

def BONK_COOLDOWN_SECONDS : Int := 3

def BONK_STREAK_STEP : Int := 10

def BONK_PENALTY_STEP : Int := 20

def BONK_PENALTY_AMOUNT : Int := 5

/-- Models `bot.user.id`, the gateway-assigned id of the bot account used as
the penalty actor (`actor_id = bot.user.id if bot.user else ADMIN_USER_ID`,
bot.py line 710).  Its concrete value never matters for any property. -/
def BOT_USER_ID : Int := 2

/-! ## Data model

`smuckles_users` rows are modelled as a total function from (guild, user) to
balance: a missing row reads as 0 (`get_points` returns 0 when no row exists,
and `adjust_points` upserts a 0 row before adding), so the function view is
exact.  `smuckles_log` and `smuckles_bonk_log` are append-only lists. -/

/-- One `smuckles_log` row (audit record), bot.py lines 60-69. -/
structure LogEntry where
  guild : Int
  actor : Int
  target : Int
  delta : Int
  reason : Option String
deriving DecidableEq

/-- One `smuckles_bonk_log` row, bot.py lines 98-108.  `ts` models
`created_at` as integer seconds. -/
structure BonkRow where
  id : Int
  guild : Int
  bonker : Int
  target : Int
  channel : Int
  message : Int
  ts : Int
deriving DecidableEq

/-- The durable plus process-local state touched by the ledger/bonk paths:
`points` models `smuckles_users`, `log` models `smuckles_log`, `lastGive`
models the in-memory `last_give_ts` dict (absent keys read as 0, bot.py
line 290), `bonkRows`/`nextBonkId` model `smuckles_bonk_log` with its
BIGSERIAL key. -/
structure SysState where
  points : Int → Int → Int
  log : List LogEntry
  lastGive : Int → Int
  bonkRows : List BonkRow
  nextBonkId : Int

/-- Fresh state: empty tables, empty cooldown dict. -/
def initState : SysState where
  points := fun _ _ => 0
  log := []
  lastGive := fun _ => 0
  bonkRows := []
  nextBonkId := 1

/-! ## Ledger store (bot.py lines 123-148) -/

/-- `adjust_points` (bot.py lines 123-133): inside one transaction, upsert a
0 row for (guild, target) and add `delta` to it.  On the function view this
is a single pointwise update; the two SQL statements being one transaction
is exactly why it is a single atomic state change here. -/
def adjust_points (g t d : Int) (st : SysState) : SysState :=
  { st with points := fun g' u' => if g' = g ∧ u' = t then st.points g' u' + d else st.points g' u' }

/-- `get_points` (bot.py lines 135-141): read the balance, 0 when absent. -/
def get_points (st : SysState) (g u : Int) : Int := st.points g u

/-- `log_txn` (bot.py lines 143-148): append one audit row. -/
def log_txn (g a t d : Int) (r : Option String) (st : SysState) : SysState :=
  { st with log := st.log ++ [⟨g, a, t, d, r⟩] }

/-- Sum of all `smuckles_log` deltas for a given (guild, target) pair. -/
def logSum (st : SysState) (g u : Int) : Int :=
  ((st.log.filter (fun e => e.guild == g && e.target == u)).map (fun e => e.delta)).sum

/-! ## Successful ledger mutations (claim C2)

A successful `/give`, `/take` or automated bonk penalty performs
`adjust_points` followed by `log_txn` with the same delta against
`TARGET_USER_ID` (bot.py lines 418-419, 444-445, 709-717). -/

inductive LedgerOp where
  | opGive (g actor amount : Int) (reason : Option String)
  | opTake (g actor amount : Int) (reason : Option String)
  | opPenalty (g : Int)

/-- Effect of one successful ledger operation: the balance update and the
audit append, with identical (guild, target, delta). -/
def applyOp (st : SysState) : LedgerOp → SysState
  | .opGive g a amt r =>
      log_txn g a TARGET_USER_ID amt r (adjust_points g TARGET_USER_ID amt st)
  | .opTake g a amt r =>
      log_txn g a TARGET_USER_ID (-amt) r (adjust_points g TARGET_USER_ID (-amt) st)
  | .opPenalty g =>
      log_txn g BOT_USER_ID TARGET_USER_ID (-BONK_PENALTY_AMOUNT) (some "20-bonk penalty")
        (adjust_points g TARGET_USER_ID (-BONK_PENALTY_AMOUNT) st)

def runOps (st : SysState) (ops : List LedgerOp) : SysState := ops.foldl applyOp st

/-- The write-ahead consistency invariant: every balance equals the sum of
its audit deltas. -/
def BalancedState (st : SysState) : Prop := ∀ g u, st.points g u = logSum st g u

lemma points_log_txn (st : SysState) (g a t d : Int) (r : Option String) (g' u' : Int) :
    (log_txn g a t d r st).points g' u' = st.points g' u' := rfl

lemma points_adjust (st : SysState) (g t d g' u' : Int) :
    (adjust_points g t d st).points g' u' =
      st.points g' u' + (if g' = g ∧ u' = t then d else 0) := by
  unfold adjust_points
  by_cases h : g' = g ∧ u' = t <;> simp [h]

lemma log_adjust (st : SysState) (g t d : Int) : (adjust_points g t d st).log = st.log := rfl

lemma logSum_log_txn (st : SysState) (g a t d : Int) (r : Option String) (g' u' : Int) :
    logSum (log_txn g a t d r st) g' u' =
      logSum st g' u' + (if g' = g ∧ u' = t then d else 0) := by
  unfold logSum log_txn
  by_cases hg : g' = g
  · by_cases ht : u' = t
    · subst hg; subst ht; simp [List.filter_append]
    · have : ¬ t = u' := fun h => ht h.symm
      simp [List.filter_append, hg.symm, this, ht]
  · have : ¬ g = g' := fun h => hg h.symm
    simp only [List.filter_append, List.map_append, List.sum_append, List.filter_cons,
      List.filter_nil, beq_iff_eq, this, Bool.false_and, if_neg, ite_false, List.map_nil,
      List.sum_nil, decide_eq_true_eq]
    have hcond : ¬ (g' = g ∧ u' = t) := fun h => hg h.1
    have hcond2 : ¬ (g = g' ∧ t = u') := fun h => this h.1
    simp [hcond, hcond2]

lemma logSum_adjust (st : SysState) (g t d g' u' : Int) :
    logSum (adjust_points g t d st) g' u' = logSum st g' u' := rfl

lemma mutate_balanced (st : SysState) (g a t d : Int) (r : Option String)
    (h : BalancedState st) :
    BalancedState (log_txn g a t d r (adjust_points g t d st)) := by
  intro g' u'
  rw [points_log_txn, points_adjust, logSum_log_txn, logSum_adjust, h g' u']

lemma applyOp_balanced (st : SysState) (op : LedgerOp) (h : BalancedState st) :
    BalancedState (applyOp st op) := by
  cases op <;> exact mutate_balanced _ _ _ _ _ _ h

lemma runOps_balanced (ops : List LedgerOp) (st : SysState) (h : BalancedState st) :
    BalancedState (runOps st ops) := by
  induction ops generalizing st with
  | nil => exact h
  | cons op rest ih => exact ih _ (applyOp_balanced _ _ h)

lemma initState_balanced : BalancedState initState := by
  intro g u; simp [initState, logSum]

/-- Claim C2: after any sequence of successful give/take/penalty operations
starting from an empty store, every account's stored balance equals the sum
of all persisted audit-log deltas targeting it (write-ahead consistency). -/
theorem ledger_balance_eq_log_sum (ops : List LedgerOp) (g u : Int) :
    (runOps initState ops).points g u = logSum (runOps initState ops) g u :=
  runOps_balanced ops initState initState_balanced g u

/-! ## Cooldown gate (bot.py lines 287-294)

`on_cooldown` reads the event-loop clock (a float; modelled as an integer
timestamp passed explicitly), looks up the actor's last allowed time with
default 0, and either denies (returning `true` and leaving the dict alone)
or stamps `now` and allows (returning `false`). -/

def on_cooldown (now userId : Int) (last : Int → Int) : Bool × (Int → Int) :=
  if now - last userId < GIVE_COOLDOWN_SECONDS then (true, last)
  else (false, fun u => if u = userId then now else last u)

/-! ## The /give command (bot.py lines 405-428) -/

def is_admin (userId : Int) : Bool := userId == ADMIN_USER_ID

def is_authorized_actor (userId : Int) : Bool :=
  userId == AUTHORIZED_GIVER_ID || userId == ADMIN_USER_ID

def is_valid_multiple (amount : Int) : Bool :=
  decide (0 < amount) && amount % MULTIPLE_OF == 0

inductive GiveOutcome where
  | notAuthorized
  | wrongTarget
  | badAmount
  | coolingDown
  | granted (newTotal : Int)
deriving DecidableEq

/-- The `/give` handler (bot.py lines 405-428).  Checks run in source order:
authorization, target, amount shape, then cooldown (`on_cooldown` is invoked
before the admin exemption is tested, so an allowed call stamps the dict
even for the admin).  On success it runs `adjust_points`, then `log_txn`,
then reads the new total.  `logFails` selects the execution in which the
`smuckles_log` INSERT raises after `adjust_points` has already committed:
the audit append simply does not happen (nothing in the source rolls the
balance back). -/
def give (logFails : Bool) (st : SysState) (now g actor member amount : Int)
    (reason : Option String) : GiveOutcome × SysState :=
  if !(is_authorized_actor actor) then (.notAuthorized, st)
  else if member != TARGET_USER_ID then (.wrongTarget, st)
  else if !(is_valid_multiple amount || amount == JACKPOT) then (.badAmount, st)
  else
    let cd := on_cooldown now actor st.lastGive
    let st1 : SysState := { st with lastGive := cd.2 }
    if cd.1 && !(is_admin actor) then (.coolingDown, st1)
    else
      let st2 := adjust_points g member amount st1
      let st3 := if logFails then st2 else log_txn g actor member amount reason st2
      (.granted (get_points st3 g member), st3)

lemma on_cooldown_denied_eq (now u : Int) (last : Int → Int)
    (h : (on_cooldown now u last).1 = true) : (on_cooldown now u last).2 = last := by
  unfold on_cooldown at h ⊢
  by_cases hc : now - last u < GIVE_COOLDOWN_SECONDS
  · rw [if_pos hc]
  · rw [if_neg hc] at h
    cases h

/-- Claim C7: the check-and-stamp is allowed (returns `false`) iff
`now - last ≥ GIVE_COOLDOWN_SECONDS`; on allow the actor's stamp becomes
`now` and nobody else's stamp moves; on denial the dict is untouched. -/
theorem cooldown_check_and_stamp (now u : Int) (last : Int → Int) :
    ((on_cooldown now u last).1 = false ↔ GIVE_COOLDOWN_SECONDS ≤ now - last u)
    ∧ ((on_cooldown now u last).1 = false → (on_cooldown now u last).2 u = now)
    ∧ ((on_cooldown now u last).1 = true → (on_cooldown now u last).2 = last)
    ∧ (∀ v, v ≠ u → (on_cooldown now u last).2 v = last v) := by
  unfold on_cooldown
  by_cases h : now - last u < GIVE_COOLDOWN_SECONDS
  · refine ⟨?_, ?_, ?_, ?_⟩
    · simp only [if_pos h]
      constructor
      · intro hc; cases hc
      · intro hle; omega
    · simp [h]
    · simp [h]
    · simp [h]
  · refine ⟨?_, ?_, ?_, ?_⟩
    · simp only [if_neg h]
      constructor
      · intro _; omega
      · intro _; trivial
    · intro _; simp [h]
    · intro hc
      rw [if_neg h] at hc
      cases hc
    · intro v hv
      simp [h, hv]

/-- Witness for C7 at the spec's concrete numbers: with the stamp at 100, a
call at elapsed time 7 is denied, at elapsed time 8 allowed, and the allowed
call re-stamps the actor to 108. -/
theorem cooldown_check_and_stamp_witness :
    (on_cooldown 107 1 (fun _ => 100)).1 = true
    ∧ (on_cooldown 108 1 (fun _ => 100)).1 = false
    ∧ (on_cooldown 108 1 (fun _ => 100)).2 1 = 108 := by
  have h7 := cooldown_check_and_stamp 107 1 (fun _ => 100)
  have h8 := cooldown_check_and_stamp 108 1 (fun _ => 100)
  have hallow : (on_cooldown 108 1 (fun _ => 100)).1 = false := h8.1.mpr (by decide)
  refine ⟨?_, hallow, h8.2.1 hallow⟩
  cases hb : (on_cooldown 107 1 (fun _ => 100)).1 with
  | false => exact absurd (h7.1.mp hb) (by decide)
  | true => rfl

/-- Claim C3: the /give validation pipeline checks authorization, then
target, then amount, then cooldown; the first failure short-circuits with
its own rejection and returns the state unchanged — in particular an
unauthorized actor gets `notAuthorized` whatever the amount is, and no
auth/target/amount/cooldown rejection stamps the cooldown dict or writes
an audit row. -/
theorem give_validation_pipeline (st : SysState) (now g actor member amount : Int)
    (reason : Option String) :
    (is_authorized_actor actor = false →
      give false st now g actor member amount reason = (.notAuthorized, st))
    ∧ (is_authorized_actor actor = true → member ≠ TARGET_USER_ID →
      give false st now g actor member amount reason = (.wrongTarget, st))
    ∧ (is_authorized_actor actor = true → member = TARGET_USER_ID →
      (is_valid_multiple amount || amount == JACKPOT) = false →
      give false st now g actor member amount reason = (.badAmount, st))
    ∧ (is_authorized_actor actor = true → member = TARGET_USER_ID →
      (is_valid_multiple amount || amount == JACKPOT) = true →
      (on_cooldown now actor st.lastGive).1 = true → is_admin actor = false →
      give false st now g actor member amount reason = (.coolingDown, st)) := by
  refine ⟨?_, ?_, ?_, ?_⟩
  · intro h; simp [give, h]
  · intro h hm; simp [give, h, hm]
  · intro h hm ha; simp [give, h, hm, ha]
  · intro h hm ha hc hadm
    have hstamp : (on_cooldown now actor st.lastGive).2 = st.lastGive :=
      on_cooldown_denied_eq now actor st.lastGive hc
    simp [give, h, hm, ha, hc, hadm, hstamp]

/-- Claim C3 witness: actor 999 is unauthorized and 7 is an invalid amount,
yet the pipeline answers `notAuthorized` (authorization short-circuits) with
the state untouched; and for the authorized giver a wrong target and then a
bad amount each reject with the state untouched. -/
theorem give_validation_pipeline_witness :
    give false initState 100 1 999 TARGET_USER_ID 7 none = (.notAuthorized, initState)
    ∧ give false initState 100 1 AUTHORIZED_GIVER_ID 555 10 none = (.wrongTarget, initState)
    ∧ give false initState 100 1 AUTHORIZED_GIVER_ID TARGET_USER_ID 7 none
        = (.badAmount, initState) :=
  ⟨(give_validation_pipeline initState 100 1 999 TARGET_USER_ID 7 none).1 (by decide),
   (give_validation_pipeline initState 100 1 AUTHORIZED_GIVER_ID 555 10 none).2.1
     (by decide) (by decide),
   (give_validation_pipeline initState 100 1 AUTHORIZED_GIVER_ID TARGET_USER_ID 7 none).2.2.1
     (by decide) rfl (by decide)⟩

/-- Claim C1: the execution of a validated `/give` in which the audit INSERT
fails after `adjust_points` has committed.  From an empty store the target's
balance becomes 5 while `smuckles_log` stays empty: the balance update and
the audit record are two separate transactions, not one atomic unit
(bot.py lines 418-419; the same split occurs in `/take` lines 444-445 and
in the bonk penalty lines 709-717). -/
theorem give_log_failure_partial_write :
    (give true initState 100 1 AUTHORIZED_GIVER_ID TARGET_USER_ID 5 none).2.points 1
        TARGET_USER_ID = 5
    ∧ (give true initState 100 1 AUTHORIZED_GIVER_ID TARGET_USER_ID 5 none).2.log = [] := by
  constructor
  · show (if (1 : Int) = 1 ∧ TARGET_USER_ID = TARGET_USER_ID then
        initState.points 1 TARGET_USER_ID + 5 else initState.points 1 TARGET_USER_ID) = 5
    simp [initState]
  · rfl

/-! ## Bonk counter and streak engine (bot.py lines 189-203, 687-723) -/

/-- Postgres `created_at::date`: the timestamp's calendar day (floor). -/
def dateOf (t : Int) : Int := Int.ediv t 86400

/-- The `today_bonk_count` WHERE clause (bot.py lines 197-203): rows for
this guild against `TARGET_USER_ID` by any bonker, on the current day. -/
def todayRow (g now : Int) (r : BonkRow) : Bool :=
  r.guild == g && r.target == TARGET_USER_ID && dateOf r.ts == dateOf now

/-- `today_bonk_count` (bot.py lines 197-203). -/
def today_bonk_count (st : SysState) (g now : Int) : Int :=
  ((st.bonkRows.filter (todayRow g now)).length : Int)

/-- `log_bonk` (bot.py lines 189-195): append one trigger row against the
fixed target, with the serial id. -/
def log_bonk (g bonker ch msg now : Int) (st : SysState) : SysState :=
  { st with
    bonkRows := st.bonkRows ++ [⟨st.nextBonkId, g, bonker, TARGET_USER_ID, ch, msg, now⟩],
    nextBonkId := st.nextBonkId + 1 }

/-- One recorded bonk (bot.py lines 687-723, the path where "bonk" matched
and the per-user cooldown passed): append the trigger row, compute
`count_today` once, then run the two independent modulo checks on that same
value — a streak meme fires iff `count_today % 10 == 0` and the −5 penalty
(with its audit row) fires iff `count_today % 20 == 0`.  Returns
(streakFired, penaltyFired) plus the new state. -/
def record_bonk (st : SysState) (g bonker ch msg now : Int) : (Bool × Bool) × SysState :=
  let st1 := log_bonk g bonker ch msg now st
  let c := today_bonk_count st1 g now
  let streak := c % BONK_STREAK_STEP == 0
  let pen := c % BONK_PENALTY_STEP == 0
  let st2 := if pen then
      log_txn g BOT_USER_ID TARGET_USER_ID (-BONK_PENALTY_AMOUNT) (some "20-bonk penalty")
        (adjust_points g TARGET_USER_ID (-BONK_PENALTY_AMOUNT) st1)
    else st1
  ((streak, pen), st2)

/-- Run `n` successive recorded bonks, counting how many streak memes and
how many penalties fired. -/
def run_bonks (g bonker ch msg now : Int) : Nat → SysState → Nat × Nat × SysState
  | 0, st => (0, 0, st)
  | n + 1, st =>
      let r := record_bonk st g bonker ch msg now
      let rest := run_bonks g bonker ch msg now n r.2
      ((if r.1.1 then 1 else 0) + rest.1, (if r.1.2 then 1 else 0) + rest.2.1, rest.2.2)

/-- How many of the counter values c+1, ..., c+n are multiples of `step`. -/
def multiplesIn (c : Int) (n : Nat) (step : Int) : Nat :=
  match n with
  | 0 => 0
  | m + 1 => (if (c + 1) % step = 0 then 1 else 0) + multiplesIn (c + 1) m step

lemma today_bonk_count_log_bonk (st : SysState) (g bonker ch msg now : Int) :
    today_bonk_count (log_bonk g bonker ch msg now st) g now =
      today_bonk_count st g now + 1 := by
  unfold today_bonk_count log_bonk
  simp [List.filter_append, todayRow]

lemma record_bonk_spec (st : SysState) (g bonker ch msg now : Int) :
    (record_bonk st g bonker ch msg now).1.1
        = ((today_bonk_count st g now + 1) % BONK_STREAK_STEP == 0)
    ∧ (record_bonk st g bonker ch msg now).1.2
        = ((today_bonk_count st g now + 1) % BONK_PENALTY_STEP == 0)
    ∧ today_bonk_count (record_bonk st g bonker ch msg now).2 g now
        = today_bonk_count st g now + 1
    ∧ (record_bonk st g bonker ch msg now).2.points g TARGET_USER_ID
        = st.points g TARGET_USER_ID -
            (if (today_bonk_count st g now + 1) % BONK_PENALTY_STEP = 0 then
              BONK_PENALTY_AMOUNT else 0) := by
  unfold record_bonk
  dsimp only
  rw [today_bonk_count_log_bonk]
  refine ⟨rfl, rfl, ?_, ?_⟩
  · by_cases h : (today_bonk_count st g now + 1) % BONK_PENALTY_STEP = 0
    · have hb : ((today_bonk_count st g now + 1) % BONK_PENALTY_STEP == 0) = true := by
        simpa using h
      simp only [hb, if_true]
      exact today_bonk_count_log_bonk st g bonker ch msg now
    · have hb : ((today_bonk_count st g now + 1) % BONK_PENALTY_STEP == 0) = false := by
        simpa using h
      simp only [hb, Bool.false_eq_true, if_false]
      exact today_bonk_count_log_bonk st g bonker ch msg now
  · by_cases h : (today_bonk_count st g now + 1) % BONK_PENALTY_STEP = 0
    · have hb : ((today_bonk_count st g now + 1) % BONK_PENALTY_STEP == 0) = true := by
        simpa using h
      simp only [hb, h, beq_self_eq_true, eq_self_iff_true, if_true, ite_true]
      rw [points_log_txn, points_adjust]
      show (log_bonk g bonker ch msg now st).points g TARGET_USER_ID +
          (if (g = g ∧ TARGET_USER_ID = TARGET_USER_ID) then -BONK_PENALTY_AMOUNT else 0) = _
      simp [log_bonk]
      omega
    · have hb : ((today_bonk_count st g now + 1) % BONK_PENALTY_STEP == 0) = false := by
        simpa using h
      simp only [hb, Bool.false_eq_true, if_false, h]
      simp [log_bonk]

lemma run_bonks_spec (g bonker ch msg now : Int) (n : Nat) :
    ∀ (st : SysState) (c : Int), today_bonk_count st g now = c →
      (run_bonks g bonker ch msg now n st).1 = multiplesIn c n BONK_STREAK_STEP
      ∧ (run_bonks g bonker ch msg now n st).2.1 = multiplesIn c n BONK_PENALTY_STEP
      ∧ (run_bonks g bonker ch msg now n st).2.2.points g TARGET_USER_ID
          = st.points g TARGET_USER_ID
              - BONK_PENALTY_AMOUNT * (multiplesIn c n BONK_PENALTY_STEP : Int) := by
  induction n with
  | zero => intro st c hc; refine ⟨rfl, rfl, by simp [run_bonks, multiplesIn]⟩
  | succ m ih =>
    intro st c hc
    have hrec := record_bonk_spec st g bonker ch msg now
    rw [hc] at hrec
    have hnext := ih (record_bonk st g bonker ch msg now).2 (c + 1) hrec.2.2.1
    show ((if (record_bonk st g bonker ch msg now).1.1 then 1 else 0)
            + (run_bonks g bonker ch msg now m (record_bonk st g bonker ch msg now).2).1
          = multiplesIn c (m + 1) BONK_STREAK_STEP)
      ∧ _ ∧ _
    refine ⟨?_, ?_, ?_⟩
    · rw [hrec.1, hnext.1]
      show _ = (if (c + 1) % BONK_STREAK_STEP = 0 then 1 else 0)
          + multiplesIn (c + 1) m BONK_STREAK_STEP
      by_cases h : (c + 1) % BONK_STREAK_STEP = 0 <;> simp [h]
    · show (if (record_bonk st g bonker ch msg now).1.2 then 1 else 0)
            + (run_bonks g bonker ch msg now m (record_bonk st g bonker ch msg now).2).2.1
          = multiplesIn c (m + 1) BONK_PENALTY_STEP
      rw [hrec.2.1, hnext.2.1]
      show _ = (if (c + 1) % BONK_PENALTY_STEP = 0 then 1 else 0)
          + multiplesIn (c + 1) m BONK_PENALTY_STEP
      by_cases h : (c + 1) % BONK_PENALTY_STEP = 0 <;> simp [h]
    · show (run_bonks g bonker ch msg now m (record_bonk st g bonker ch msg now).2).2.2.points
            g TARGET_USER_ID
          = st.points g TARGET_USER_ID
              - BONK_PENALTY_AMOUNT * (multiplesIn c (m + 1) BONK_PENALTY_STEP : Int)
      rw [hnext.2.2, hrec.2.2.2]
      show _ = _ - BONK_PENALTY_AMOUNT *
          (((if (c + 1) % BONK_PENALTY_STEP = 0 then 1 else 0)
            + multiplesIn (c + 1) m BONK_PENALTY_STEP : Nat) : Int)
      by_cases h : (c + 1) % BONK_PENALTY_STEP = 0
      · simp only [h, if_true, ite_true]
        push_cast
        ring
      · simp only [h, if_false, ite_false]
        push_cast
        ring

/-- Claim C4: starting from 0 triggers against the target today, recording
20 bonks fires exactly 2 streak memes (at counts 10 and 20) and exactly 1
penalty (at count 20, where both checks fire on the same `count_today`
value), and the single penalty lowers the target's balance by 5. -/
theorem bonk_threshold_firing (st : SysState) (g bonker ch msg now : Int)
    (h : today_bonk_count st g now = 0) :
    (run_bonks g bonker ch msg now 20 st).1 = 2
    ∧ (run_bonks g bonker ch msg now 20 st).2.1 = 1
    ∧ (run_bonks g bonker ch msg now 20 st).2.2.points g TARGET_USER_ID
        = st.points g TARGET_USER_ID - 5 := by
  have hs := run_bonks_spec g bonker ch msg now 20 st 0 h
  have h10 : multiplesIn 0 20 BONK_STREAK_STEP = 2 := by decide
  have h20 : multiplesIn 0 20 BONK_PENALTY_STEP = 1 := by decide
  refine ⟨by rw [hs.1, h10], by rw [hs.2.1, h20], ?_⟩
  rw [hs.2.2, h20]
  show _ - BONK_PENALTY_AMOUNT * ((1 : Nat) : Int) = _
  norm_num [BONK_PENALTY_AMOUNT]

/-- Witness for C4 at a concrete fresh state: 20 bonks in guild 1 by user 7
produce 2 streak firings and 1 penalty, leaving the target at -5. -/
theorem bonk_threshold_firing_witness :
    (run_bonks 1 7 3 4 100 20 initState).1 = 2
    ∧ (run_bonks 1 7 3 4 100 20 initState).2.1 = 1
    ∧ (run_bonks 1 7 3 4 100 20 initState).2.2.points 1 TARGET_USER_ID
        = initState.points 1 TARGET_USER_ID - 5 :=
  bonk_threshold_firing initState 1 7 3 4 100 rfl

/-! ## Bonk removal (bot.py lines 244-275)

`remove_bonks_for_user` builds a WHERE clause for (guild, TARGET, bonker)
plus an optional day/week window, selects the ids of the newest `count`
matching rows (`ORDER BY created_at DESC LIMIT count`), deletes them and
returns the deleted-row count.  The SQL fixes no order among rows with
equal `created_at`, so the selection is modelled relationally: any
permutation of the matching rows that is sorted by timestamp descending is
a legal selection order. -/

/-- The optional window filter of the WHERE clause. -/
def window_keep (window : String) (now : Int) (r : BonkRow) : Bool :=
  if window == "day" then dateOf r.ts == dateOf now
  else if window == "week" then decide (now - 7 * 86400 ≤ r.ts)
  else true

/-- The full WHERE clause of `remove_bonks_for_user`. -/
def bonkMatch (g bonker : Int) (window : String) (now : Int) (r : BonkRow) : Bool :=
  r.guild == g && r.target == TARGET_USER_ID && r.bonker == bonker && window_keep window now r

/-- Relational semantics of one `remove_bonks_for_user` call on the table
`rows`, returning `removed` rows deleted and the remaining table `rows'`:
either `count ≤ 0` and nothing happens (bot.py line 250), or some
descending-by-timestamp ordering `s` of the matching rows is chosen, the
ids of its first `count` rows are deleted, and the deleted rows are
counted. -/
def IsRemoveBonksOutcome (rows : List BonkRow) (g bonker : Int) (window : String)
    (now count : Int) (removed : Nat) (rows' : List BonkRow) : Prop :=
  (count ≤ 0 ∧ removed = 0 ∧ rows' = rows) ∨
  (0 < count ∧ ∃ s : List BonkRow,
    s.Perm (rows.filter (bonkMatch g bonker window now)) ∧
    s.Sorted (fun a b => b.ts ≤ a.ts) ∧
    rows' = rows.filter (fun r => decide (r.id ∉ (s.take count.toNat).map (fun x => x.id))) ∧
    removed = (rows.filter (fun r =>
      decide (r.id ∈ (s.take count.toNat).map (fun x => x.id)))).length)

lemma map_filter_through (f : BonkRow → Int) (p : Int → Bool) (l : List BonkRow) :
    (l.filter (fun a => p (f a))).map f = (l.map f).filter p := by
  induction l with
  | nil => rfl
  | cons a l ih => by_cases h : p (f a) <;> simp [h, ih]

lemma filter_mem_length_of_nodup (L S : List Int) (hL : L.Nodup) (hS : S.Nodup)
    (hsub : ∀ x ∈ S, x ∈ L) :
    (L.filter (fun x => decide (x ∈ S))).length = S.length := by
  have hperm : (L.filter (fun x => decide (x ∈ S))).Perm S := by
    refine (List.perm_ext_iff_of_nodup (hL.filter _) hS).mpr ?_
    intro a
    simp only [List.mem_filter, decide_eq_true_eq]
    exact ⟨fun h => h.2, fun h => ⟨hsub a h, h⟩⟩
  exact hperm.length_eq

/-- Claim C9: assuming the table's serial ids are distinct, any legal
outcome of `remove_bonks_for_user` deletes at most `count` rows, returns
exactly the number deleted (`min count #matching`), removes every matching
row when fewer than `count` match (no error — just the smaller number),
and only ever deletes rows whose timestamp is ≥ that of every matching row
left behind (newest first). -/
theorem remove_bonks_bounded (rows : List BonkRow) (g bonker : Int) (window : String)
    (now count : Int) (removed : Nat) (rows' : List BonkRow)
    (hids : (rows.map (fun r => r.id)).Nodup)
    (h : IsRemoveBonksOutcome rows g bonker window now count removed rows') :
    (count ≤ 0 → removed = 0 ∧ rows' = rows)
    ∧ (0 < count →
        removed = min count.toNat (rows.filter (bonkMatch g bonker window now)).length
        ∧ ((rows.filter (bonkMatch g bonker window now)).length ≤ count.toNat →
            rows'.filter (bonkMatch g bonker window now) = [])
        ∧ (∀ d ∈ rows, d ∉ rows' → ∀ r ∈ rows',
            bonkMatch g bonker window now r = true → r.ts ≤ d.ts)) := by
  constructor
  · intro hc
    rcases h with ⟨_, hr, hrows⟩ | ⟨hpos, _⟩
    · exact ⟨hr, hrows⟩
    · omega
  · intro hpos
    rcases h with ⟨hc, _, _⟩ | ⟨_, s, hperm, hsort, hrows', hremoved⟩
    · omega
    set M := rows.filter (bonkMatch g bonker window now) with hM
    set k := count.toNat with hk
    set toDel := (s.take k).map (fun x => x.id) with htoDel
    have hMsub : List.Sublist M rows := List.filter_sublist rows
    have hMids : (M.map (fun r => r.id)).Nodup := hids.sublist (hMsub.map _)
    have hsids : (s.map (fun r => r.id)).Nodup := (hperm.map _).nodup_iff.mpr hMids
    have htDnodup : toDel.Nodup := hsids.sublist ((List.take_sublist k s).map _)
    have htD_in_s : ∀ x ∈ toDel, x ∈ s.map (fun r => r.id) := fun x hx =>
      ((List.take_sublist k s).map _).subset hx
    have htD_in_M : ∀ x ∈ toDel, x ∈ M.map (fun r => r.id) := fun x hx =>
      ((hperm.map _).mem_iff).mp (htD_in_s x hx)
    have htD_in_rows : ∀ x ∈ toDel, x ∈ rows.map (fun r => r.id) := fun x hx =>
      (hMsub.map _).subset (htD_in_M x hx)
    have hlenD : toDel.length = min k M.length := by
      rw [htoDel, List.length_map, List.length_take, hperm.length_eq]
    have hrem : removed = min k M.length := by
      rw [hremoved]
      have hmapeq : (rows.filter (fun r => decide (r.id ∈ toDel))).map (fun r => r.id)
          = (rows.map (fun r => r.id)).filter (fun x => decide (x ∈ toDel)) :=
        map_filter_through (fun r => r.id) (fun x => decide (x ∈ toDel)) rows
      have hlen := filter_mem_length_of_nodup (rows.map (fun r => r.id)) toDel hids
        htDnodup htD_in_rows
      calc (rows.filter (fun r => decide (r.id ∈ toDel))).length
          = ((rows.filter (fun r => decide (r.id ∈ toDel))).map (fun r => r.id)).length := by
            rw [List.length_map]
        _ = toDel.length := by rw [hmapeq, hlen]
        _ = min k M.length := hlenD
    refine ⟨hrem, ?_, ?_⟩
    · intro hle
      have hslen : s.length ≤ k := by rw [hperm.length_eq]; exact hle
      have htake : s.take k = s := List.take_of_length_le hslen
      rw [List.eq_nil_iff_forall_not_mem]
      intro r hr
      rw [List.mem_filter] at hr
      have hr' := hr.1
      rw [hrows', List.mem_filter] at hr'
      have hnotin := of_decide_eq_true hr'.2
      have hinM : r ∈ M := List.mem_filter.mpr ⟨hr'.1, hr.2⟩
      have : r.id ∈ toDel := by
        rw [htoDel, htake]
        exact List.mem_map.mpr ⟨r, (hperm.mem_iff).mpr hinM, rfl⟩
      exact hnotin this
    · intro d hd hdnot r hr hrmatch
      have hdid : d.id ∈ toDel := by
        by_contra hno
        exact hdnot (by
          rw [hrows', List.mem_filter]
          exact ⟨hd, decide_eq_true hno⟩)
      obtain ⟨d', hd'mem, hd'id⟩ := List.mem_map.mp hdid
      have hd'_s : d' ∈ s := (List.take_sublist k s).subset hd'mem
      have hd'_M : d' ∈ M := (hperm.mem_iff).mp hd'_s
      have hd'_rows : d' ∈ rows := hMsub.subset hd'_M
      have hdd : d' = d := List.inj_on_of_nodup_map hids hd'_rows hd hd'id
      have hr' := hr
      rw [hrows', List.mem_filter] at hr'
      have hrnot : r.id ∉ toDel := of_decide_eq_true hr'.2
      have hrM : r ∈ M := List.mem_filter.mpr ⟨hr'.1, hrmatch⟩
      have hrs : r ∈ s := (hperm.mem_iff).mpr hrM
      have hrdrop : r ∈ s.drop k := by
        rcases (List.mem_append.mp (by rw [List.take_append_drop k s]; exact hrs :
            r ∈ s.take k ++ s.drop k)) with htk | hdk
        · exact absurd (List.mem_map.mpr ⟨r, htk, rfl⟩) hrnot
        · exact hdk
      have hpw := (List.pairwise_append.mp (by
        rw [List.take_append_drop k s]; exact hsort :
          List.Pairwise (fun a b => b.ts ≤ a.ts) (s.take k ++ s.drop k))).2.2
      have := hpw d' hd'mem r hrdrop
      rw [hdd] at this
      exact this

/-- Witness for C9, the spec's concrete scenario: count=5 requested in the
"day" window when only 3 bonks by this user match today (a fourth row is
from an earlier day); the outcome deletes exactly the 3 matching rows and
reports 3, and no matching row survives. -/
theorem remove_bonks_bounded_witness :
    (3 : Nat) = min (Int.toNat 5)
        (([⟨1, 1, 2, TARGET_USER_ID, 5, 6, 259290⟩, ⟨2, 1, 2, TARGET_USER_ID, 5, 7, 259280⟩,
           ⟨3, 1, 2, TARGET_USER_ID, 5, 8, 259270⟩, ⟨4, 1, 2, TARGET_USER_ID, 5, 9, 100⟩] :
          List BonkRow).filter (bonkMatch 1 2 "day" 259300)).length
    ∧ ([(⟨4, 1, 2, TARGET_USER_ID, 5, 9, 100⟩ : BonkRow)].filter
        (bonkMatch 1 2 "day" 259300) = []) := by
  have h := remove_bonks_bounded
    [⟨1, 1, 2, TARGET_USER_ID, 5, 6, 259290⟩, ⟨2, 1, 2, TARGET_USER_ID, 5, 7, 259280⟩,
     ⟨3, 1, 2, TARGET_USER_ID, 5, 8, 259270⟩, ⟨4, 1, 2, TARGET_USER_ID, 5, 9, 100⟩]
    1 2 "day" 259300 5 3 [⟨4, 1, 2, TARGET_USER_ID, 5, 9, 100⟩]
    (by decide)
    (Or.inr ⟨by decide,
      [⟨1, 1, 2, TARGET_USER_ID, 5, 6, 259290⟩, ⟨2, 1, 2, TARGET_USER_ID, 5, 7, 259280⟩,
       ⟨3, 1, 2, TARGET_USER_ID, 5, 8, 259270⟩],
      by decide, by decide, by decide, by decide⟩)
  exact ⟨(h.2 (by decide)).1, (h.2 (by decide)).2.1 (by decide)⟩

/-! ## Spotify link store (bot.py lines 72-83, 151-163, 514-561)

`smuckles_spotify_links` has UNIQUE (guild_id, user_id, message_id, url)
and `save_spotify_links` inserts each url with ON CONFLICT DO NOTHING, so
one insert is insert-if-absent on that key.  The early `if not urls:
return` is observationally the empty fold. -/

/-- One `smuckles_spotify_links` row. -/
structure ArtRow where
  guild : Int
  user : Int
  channel : Int
  message : Int
  url : String
deriving DecidableEq

/-- The UNIQUE key of the table: (guild_id, user_id, message_id, url) —
note `channel_id` is not part of it. -/
def artKey (r : ArtRow) : Int × Int × Int × String := (r.guild, r.user, r.message, r.url)

/-- Does a row with this unique key already exist? -/
def hasKey (st : List ArtRow) (g u m : Int) (url : String) : Bool :=
  st.any (fun r => r.guild == g && r.user == u && r.message == m && r.url == url)

/-- One `INSERT ... ON CONFLICT DO NOTHING` (bot.py lines 157-161). -/
def insert_link (g u c m : Int) (url : String) (st : List ArtRow) : List ArtRow :=
  if hasKey st g u m url then st else st ++ [⟨g, u, c, m, url⟩]

/-- `save_spotify_links` (bot.py lines 151-163): insert each url in turn. -/
def save_spotify_links (g u c m : Int) (urls : List String) (st : List ArtRow) : List ArtRow :=
  urls.foldl (fun acc url => insert_link g u c m url acc) st

/-- The table's uniqueness invariant. -/
def NodupKeys (st : List ArtRow) : Prop := (st.map artKey).Nodup

lemma insert_link_of_hasKey (g u c m : Int) (url : String) (st : List ArtRow)
    (h : hasKey st g u m url = true) : insert_link g u c m url st = st := by
  simp [insert_link, h]

lemma hasKey_insert_mono (g u c m g0 u0 m0 : Int) (url url0 : String) (st : List ArtRow)
    (h : hasKey st g0 u0 m0 url0 = true) :
    hasKey (insert_link g u c m url st) g0 u0 m0 url0 = true := by
  unfold insert_link
  split
  · exact h
  · unfold hasKey at h ⊢
    rw [List.any_append, h, Bool.true_or]

lemma hasKey_insert_self (g u c m : Int) (url : String) (st : List ArtRow) :
    hasKey (insert_link g u c m url st) g u m url = true := by
  unfold insert_link
  split
  · assumption
  · unfold hasKey
    rw [List.any_append]
    simp

lemma hasKey_save_mono (g u c m g0 u0 m0 : Int) (url0 : String) (urls : List String)
    (st : List ArtRow) (h : hasKey st g0 u0 m0 url0 = true) :
    hasKey (save_spotify_links g u c m urls st) g0 u0 m0 url0 = true := by
  induction urls generalizing st with
  | nil => exact h
  | cons a l ih => exact ih _ (hasKey_insert_mono g u c m g0 u0 m0 a url0 st h)

lemma hasKey_save_of_mem (g u c m : Int) (urls : List String) (st : List ArtRow) :
    ∀ url ∈ urls, hasKey (save_spotify_links g u c m urls st) g u m url = true := by
  induction urls generalizing st with
  | nil => intro url h; cases h
  | cons a l ih =>
    intro url h
    rcases List.mem_cons.mp h with rfl | hmem
    · exact hasKey_save_mono g u c m g u m url l _ (hasKey_insert_self g u c m url st)
    · exact ih (insert_link g u c m a st) url hmem

lemma save_of_all_present (g u c m : Int) (urls : List String) (st : List ArtRow)
    (h : ∀ url ∈ urls, hasKey st g u m url = true) :
    save_spotify_links g u c m urls st = st := by
  induction urls with
  | nil => rfl
  | cons a l ih =>
    show save_spotify_links g u c m l (insert_link g u c m a st) = st
    rw [insert_link_of_hasKey g u c m a st (h a (List.mem_cons_self a l))]
    exact ih (fun url hu => h url (List.mem_cons_of_mem a hu))

lemma hasKey_iff_key_mem (st : List ArtRow) (g u m : Int) (url : String) :
    hasKey st g u m url = true ↔ (g, u, m, url) ∈ st.map artKey := by
  unfold hasKey
  rw [List.any_eq_true]
  constructor
  · rintro ⟨r, hr, hmatch⟩
    simp only [Bool.and_eq_true, beq_iff_eq] at hmatch
    refine List.mem_map.mpr ⟨r, hr, ?_⟩
    unfold artKey
    rw [hmatch.1.1.1, hmatch.1.1.2, hmatch.1.2, hmatch.2]
  · intro hmem
    obtain ⟨r, hr, hkey⟩ := List.mem_map.mp hmem
    refine ⟨r, hr, ?_⟩
    unfold artKey at hkey
    simp only [Prod.mk.injEq] at hkey
    simp [hkey.1, hkey.2.1, hkey.2.2.1, hkey.2.2.2]

lemma insert_link_nodup (g u c m : Int) (url : String) (st : List ArtRow)
    (h : NodupKeys st) : NodupKeys (insert_link g u c m url st) := by
  unfold insert_link
  split
  · exact h
  · rename_i hno
    unfold NodupKeys
    simp only [List.map_append, List.map_cons, List.map_nil]
    have hperm : ((st.map artKey) ++ [artKey ⟨g, u, c, m, url⟩]).Perm
        (artKey ⟨g, u, c, m, url⟩ :: st.map artKey) := List.perm_append_singleton _ _
    rw [hperm.nodup_iff]
    refine List.nodup_cons.mpr ⟨?_, h⟩
    intro hmem
    exact absurd ((hasKey_iff_key_mem st g u m url).mpr hmem) (by simp [hno])

lemma save_nodup (g u c m : Int) (urls : List String) (st : List ArtRow)
    (h : NodupKeys st) : NodupKeys (save_spotify_links g u c m urls st) := by
  induction urls generalizing st with
  | nil => exact h
  | cons a l ih => exact ih _ (insert_link_nodup g u c m a st h)

/-- Claim C6: the artifact store never holds two rows with the same
(guild, owner, message, url) key — `save_spotify_links` preserves the
uniqueness invariant — and re-running the same save is a no-op on the
store (and, being a total function, never an error). -/
theorem spotify_links_unique_and_idempotent (st : List ArtRow) (g u c m : Int)
    (urls : List String) :
    (NodupKeys st → NodupKeys (save_spotify_links g u c m urls st))
    ∧ save_spotify_links g u c m urls (save_spotify_links g u c m urls st)
        = save_spotify_links g u c m urls st :=
  ⟨save_nodup g u c m urls st,
   save_of_all_present g u c m urls _ (hasKey_save_of_mem g u c m urls st)⟩

/-- Witness for C6: saving the urls a, b, a for one message into an empty
store keeps unique keys, and saving them again changes nothing. -/
theorem spotify_links_unique_and_idempotent_witness :
    NodupKeys (save_spotify_links 1 2 3 4 ["a", "b", "a"] [])
    ∧ save_spotify_links 1 2 3 4 ["a", "b", "a"]
        (save_spotify_links 1 2 3 4 ["a", "b", "a"] [])
      = save_spotify_links 1 2 3 4 ["a", "b", "a"] [] :=
  ⟨(spotify_links_unique_and_idempotent [] 1 2 3 4 ["a", "b", "a"]).1
     (by simp [NodupKeys]),
   (spotify_links_unique_and_idempotent [] 1 2 3 4 ["a", "b", "a"]).2⟩

/-! ## Backfill scan counting (bot.py lines 514-561)

A scanned message is modelled by its author, id, and the list of regex
matches found in its content and embed fields in order of appearance
(`SPOTIFY_REGEX.findall` over content, embed url/description/title and
field names/values); `extract_spotify_from_message` then de-duplicates
those matches preserving first occurrence (bot.py lines 305-328). -/

structure ScanMsg where
  author : Int
  msgId : Int
  found : List String
deriving DecidableEq

/-- Order-preserving de-duplication (bot.py lines 321-328). -/
def dedupKeep (seen : List String) : List String → List String
  | [] => []
  | x :: xs => if x ∈ seen then dedupKeep seen xs else x :: dedupKeep (x :: seen) xs

/-- `extract_spotify_from_message` on the modelled message. -/
def extract_spotify_from_message (msg : ScanMsg) : List String := dedupKeep [] msg.found

/-- Running totals and store of the `/paposcan` loop (bot.py lines 525-546):
for every scanned message by the target that yields links, the extracted
urls are saved (deduplicated by the store) but `saved_urls` is increased by
`len(urls)` — the number of extracted urls, not of inserted rows. -/
structure ScanRes where
  scanned : Nat
  matched : Nat
  saved : Nat
  store : List ArtRow
deriving DecidableEq

def paposcan_step (g ch : Int) (acc : ScanRes) (msg : ScanMsg) : ScanRes :=
  let acc1 := { acc with scanned := acc.scanned + 1 }
  if msg.author == TARGET_USER_ID then
    let urls := extract_spotify_from_message msg
    if urls.isEmpty then acc1
    else
      { acc1 with
        matched := acc1.matched + 1,
        store := save_spotify_links g TARGET_USER_ID ch msg.msgId urls acc1.store,
        saved := acc1.saved + urls.length }
  else acc1

/-- The `/paposcan` history loop over a list of messages (newest first),
starting from an existing store. -/
def paposcan (g ch : Int) (store : List ArtRow) (msgs : List ScanMsg) : ScanRes :=
  msgs.foldl (paposcan_step g ch) ⟨0, 0, 0, store⟩

/-- Counterexample to claim C5: scan the same single-link message by the
target twice (the second time with the store already containing the link).
The second scan inserts nothing — the store is unchanged — yet still
reports 1 saved URL, so the reported total counts re-extracted payloads,
not rows actually inserted, and no inserted-count of 0 is ever produced. -/
theorem paposcan_counts_reextracted_counterexample :
    (paposcan 1 2 [] [⟨TARGET_USER_ID, 11, ["u"]⟩]).saved = 1
    ∧ (paposcan 1 2 (paposcan 1 2 [] [⟨TARGET_USER_ID, 11, ["u"]⟩]).store
        [⟨TARGET_USER_ID, 11, ["u"]⟩]).saved = 1
    ∧ (paposcan 1 2 (paposcan 1 2 [] [⟨TARGET_USER_ID, 11, ["u"]⟩]).store
        [⟨TARGET_USER_ID, 11, ["u"]⟩]).store
      = (paposcan 1 2 [] [⟨TARGET_USER_ID, 11, ["u"]⟩]).store := by
  refine ⟨rfl, rfl, ?_⟩
  decide

/-- The saved-URL total a scan actually reports: the number of extracted
(per-message de-duplicated) urls over the target's link-bearing messages,
independent of what the store already contains. -/
def savedSpec (msgs : List ScanMsg) : Nat :=
  (msgs.map (fun m => if m.author == TARGET_USER_ID then
    (extract_spotify_from_message m).length else 0)).sum

lemma paposcan_step_saved (g ch : Int) (acc : ScanRes) (m : ScanMsg) :
    (paposcan_step g ch acc m).saved = acc.saved +
      (if m.author == TARGET_USER_ID then (extract_spotify_from_message m).length else 0) := by
  unfold paposcan_step
  by_cases hauth : (m.author == TARGET_USER_ID) = true
  · by_cases hurls : (extract_spotify_from_message m).isEmpty = true
    · have hlen : (extract_spotify_from_message m).length = 0 := by
        rwa [List.isEmpty_iff_length_eq_zero] at hurls
      simp [hauth, hurls, hlen]
    · simp [hauth, hurls]
  · simp [hauth]

lemma paposcan_fold_saved (g ch : Int) (msgs : List ScanMsg) (acc : ScanRes) :
    (msgs.foldl (paposcan_step g ch) acc).saved = acc.saved + savedSpec msgs := by
  induction msgs generalizing acc with
  | nil => simp [savedSpec]
  | cons m l ih =>
    rw [List.foldl_cons, ih, paposcan_step_saved]
    unfold savedSpec
    simp only [List.map_cons, List.sum_cons]
    by_cases hauth : (m.author == TARGET_USER_ID) = true
    · simp only [hauth, if_true]
      omega
    · simp only [hauth, Bool.false_eq_true, if_false]
      omega

/-- Claim C5 as amended: `save_spotify_links` returns no inserted count at
all, and the scan's reported saved-URL total is exactly the number of
extracted (per-message de-duplicated) urls over the target's messages —
whatever the store already contained — while the store itself still absorbs
duplicates (claim C6). -/
theorem paposcan_saved_counts_extracted (g ch : Int) (store : List ArtRow)
    (msgs : List ScanMsg) :
    (paposcan g ch store msgs).saved = savedSpec msgs := by
  unfold paposcan
  rw [paposcan_fold_saved]
  simp

/-! ## Leaderboards (bot.py lines 456-462 and 225-242)

`/sandia` runs `SELECT user_id, points ... ORDER BY points DESC LIMIT n`
and `bonk_leaderboard` runs `SELECT bonker_id, COUNT(*) AS c ... GROUP BY
bonker_id ORDER BY c DESC LIMIT n`.  Neither query names a secondary sort
key, so rows with equal scores may come back in any order: the result is
modelled relationally as the `n`-prefix of some descending-sorted
permutation of the underlying rows. -/

/-- One `smuckles_users` row. -/
structure AccountRow where
  guild : Int
  user : Int
  points : Int
deriving DecidableEq

/-- The possible results of the `/sandia` query. -/
def IsSandiaOutput (rows : List AccountRow) (g : Int) (n : Nat)
    (res : List AccountRow) : Prop :=
  ∃ s : List AccountRow,
    s.Perm (rows.filter (fun r => r.guild == g)) ∧
    s.Sorted (fun a b => b.points ≤ a.points) ∧
    res = s.take n

/-- The GROUP BY rows of `bonk_leaderboard`: one (bonker, count) pair per
distinct bonker among the filtered trigger rows. -/
def bonkGroupRows (rows : List BonkRow) (g : Int) (window : String) (now : Int)
    (ids : List Int) : List (Int × Int) :=
  ids.map (fun b =>
    (b, (((rows.filter (fun r =>
        r.guild == g && r.target == TARGET_USER_ID && window_keep window now r)).filter
          (fun r => r.bonker == b)).length : Int)))

/-- The possible results of the `bonk_leaderboard` query. -/
def IsBonkTopOutput (rows : List BonkRow) (g : Int) (window : String) (now : Int)
    (n : Nat) (res : List (Int × Int)) : Prop :=
  ∃ ids : List Int, ∃ s : List (Int × Int),
    ids.Nodup ∧
    (∀ b, b ∈ ids ↔ b ∈ (rows.filter (fun r =>
      r.guild == g && r.target == TARGET_USER_ID && window_keep window now r)).map
        (fun r => r.bonker)) ∧
    s.Perm (bonkGroupRows rows g window now ids) ∧
    s.Sorted (fun a b => b.2 ≤ a.2) ∧
    res = s.take n

/-- Counterexample to claim C8: with two accounts of equal balance 5 in the
guild, the list putting the larger id first is a legal `/sandia` result
(it is a descending-sorted permutation), yet it does not order the tie by
ascending account id — the query has no tie-break key. -/
theorem sandia_tie_order_not_ascending :
    IsSandiaOutput [⟨1, 1, 5⟩, ⟨1, 2, 5⟩] 1 10 [⟨1, 2, 5⟩, ⟨1, 1, 5⟩]
    ∧ ¬ (([⟨1, 2, 5⟩, ⟨1, 1, 5⟩] : List AccountRow).Pairwise
        (fun a b => a.points = b.points → a.user < b.user)) :=
  ⟨⟨[⟨1, 2, 5⟩, ⟨1, 1, 5⟩], by decide, by decide, by decide⟩, by decide⟩

/-- Claim C8 as amended: both leaderboards return their entries in
descending order of score (balance, resp. trigger count); the queries fix
no order among entries with equal score, so any tie order can occur. -/
theorem leaderboards_sorted_desc :
    (∀ (rows : List AccountRow) (g : Int) (n : Nat) (res : List AccountRow),
      IsSandiaOutput rows g n res → res.Sorted (fun a b => b.points ≤ a.points))
    ∧ (∀ (rows : List BonkRow) (g : Int) (window : String) (now : Int) (n : Nat)
        (res : List (Int × Int)),
      IsBonkTopOutput rows g window now n res → res.Sorted (fun a b => b.2 ≤ a.2)) := by
  constructor
  · rintro rows g n res ⟨s, hperm, hsort, rfl⟩
    exact hsort.sublist (List.take_sublist n s)
  · rintro rows g window now n res ⟨ids, s, _, _, hperm, hsort, rfl⟩
    exact hsort.sublist (List.take_sublist n s)

/-- Witness for C8 (amended): a concrete legal `/sandia` output is sorted
descending, and so is a concrete legal `bonk_leaderboard` output of the
empty table. -/
theorem leaderboards_sorted_desc_witness :
    (([⟨1, 1, 7⟩, ⟨1, 2, 5⟩] : List AccountRow).Sorted (fun a b => b.points ≤ a.points))
    ∧ (([] : List (Int × Int)).Sorted (fun a b => b.2 ≤ a.2)) :=
  ⟨leaderboards_sorted_desc.1 [⟨1, 1, 7⟩, ⟨1, 2, 5⟩] 1 10 [⟨1, 1, 7⟩, ⟨1, 2, 5⟩]
      ⟨[⟨1, 1, 7⟩, ⟨1, 2, 5⟩], by decide, by decide, by decide⟩,
   leaderboards_sorted_desc.2 [] 1 "all" 0 10 []
      ⟨[], [], by decide, by simp, by decide, by decide, by decide⟩⟩

/-! ## Reminder-note extraction (bot.py lines 330-339, 763-779)

`extract_reminder_note` lowercases the text, finds the first "remind",
takes the raw text after it, strips surrounding whitespace, then applies
`re.sub(r"^(me|us|to|@?\w+)?\s*", "", note, flags=re.IGNORECASE)`.
Python's regex tries the alternatives left to right and keeps the first
success without maximising: "me", "us", "to" are tried before `@?\w+`.
`\w` is modelled as ASCII alphanumeric or underscore. -/

def isWS (c : Char) : Bool := c.isWhitespace

def isWordChar (c : Char) : Bool := c.isAlphanum || c == '_'

/-- Case-sensitive literal match at the head (for `str.find` on the
already-lowercased text). -/
def startsWithL : List Char → List Char → Bool
  | [], _ => true
  | _ :: _, [] => false
  | p :: ps, c :: cs => (p == c) && startsWithL ps cs

/-- Case-insensitive literal match at the head (for the IGNORECASE
alternatives "me", "us", "to"). -/
def ciStartsWith : List Char → List Char → Bool
  | [], _ => true
  | _ :: _, [] => false
  | p :: ps, c :: cs => (c.toLower == p.toLower) && ciStartsWith ps cs

def remindWord : List Char := ['r', 'e', 'm', 'i', 'n', 'd']

/-- `str.find`: index of the first occurrence of the needle, none if
absent. -/
def findSub (needle : List Char) : List Char → Option Nat
  | [] => if needle = [] then some 0 else none
  | c :: cs =>
      if startsWithL needle (c :: cs) then some 0
      else (findSub needle cs).map (fun i => i + 1)

/-- Python `str.strip()`. -/
def pyStrip (s : List Char) : List Char :=
  ((s.dropWhile isWS).reverse.dropWhile isWS).reverse

/-- Length of the match of the optional group `(me|us|to|@?\w+)?` at the
head of the string: Python tries "me", "us", "to" first (two characters,
even when they are only the head of a longer word), then a greedy
`@?\w+`, and falls back to the empty match. -/
def matchGroupLen (s : List Char) : Nat :=
  if ciStartsWith ['m', 'e'] s then 2
  else if ciStartsWith ['u', 's'] s then 2
  else if ciStartsWith ['t', 'o'] s then 2
  else if s.head? = some '@' then
    (if 0 < (s.tail.takeWhile isWordChar).length
      then 1 + (s.tail.takeWhile isWordChar).length else 0)
  else (s.takeWhile isWordChar).length

/-- The regex substitution: drop the group match, then `\s*`. -/
def stripLeadToken (s : List Char) : List Char :=
  (s.drop (matchGroupLen s)).dropWhile isWS

/-- `extract_reminder_note` (bot.py lines 330-339) on the character list. -/
def extractNote (raw : List Char) : Option (List Char) :=
  if raw = [] then none
  else
    match findSub remindWord (raw.map Char.toLower) with
    | none => none
    | some idx =>
      let note := pyStrip (raw.drop (idx + 6))
      let note2 := stripLeadToken note
      if note2 = [] then none else some note2

/-- `extract_reminder_note` on strings. -/
def extract_reminder_note (s : String) : Option String :=
  (extractNote s.data).map (fun l => String.mk l)

/-- The reminder-capture branch of `on_message` (bot.py lines 763-779),
given that the bot was mentioned and "remind" occurs: save the note
(truncated to 500 characters) iff extraction returned one. -/
def reminder_capture (bank : List (List Char)) (raw : List Char) : List (List Char) :=
  match extractNote raw with
  | none => bank
  | some note => bank ++ [note.take 500]

/-- Modelled from the claim's words, for comparison: take the text after
the first "remind", strip it, then remove the entire first
whitespace-delimited word and the whitespace after it. -/
def extractNoteClaimed (raw : List Char) : Option (List Char) :=
  if raw = [] then none
  else
    match findSub remindWord (raw.map Char.toLower) with
    | none => none
    | some idx =>
      let note := pyStrip (raw.drop (idx + 6))
      let note2 := (note.dropWhile (fun c => !(isWS c))).dropWhile isWS
      if note2 = [] then none else some note2

/-- Counterexample to claim C10: the claim says the first whitespace-
delimited word after "remind" is stripped whole, whatever it is.  On
"remind tomorrow water plants" the code strips only "to" — the "to"
alternative is tried before `@?\w+` and matches the head of "tomorrow" —
saving "morrow water plants", while the claimed behaviour would save
"water plants". -/
theorem reminder_word_partial_strip_counterexample :
    extract_reminder_note "remind tomorrow water plants" = some "morrow water plants"
    ∧ extractNoteClaimed ("remind tomorrow water plants".data)
        = some ("water plants".data)
    ∧ some "morrow water plants" ≠ some "water plants" := by
  refine ⟨?_, ?_, ?_⟩ <;> decide

lemma dropWhile_length_le (p : Char → Bool) : ∀ l : List Char,
    (l.dropWhile p).length ≤ l.length
  | [] => le_refl _
  | c :: l => by
      rw [List.dropWhile_cons]
      split
      · exact le_trans (dropWhile_length_le p l) (Nat.le_succ _)
      · exact le_refl _

lemma head_false_of_dropWhile_self (p : Char → Bool) (c : Char) (l : List Char)
    (h : (c :: l).dropWhile p = c :: l) : p c = false := by
  cases hc : p c with
  | false => rfl
  | true =>
    rw [List.dropWhile_cons, hc, if_pos rfl] at h
    have hlen := congrArg List.length h
    have hle := dropWhile_length_le p l
    simp only [List.length_cons] at hlen
    omega

lemma dropWhile_append_self (p : Char → Bool) (l x : List Char) (hne : l ≠ [])
    (h : l.dropWhile p = l) : (l ++ x).dropWhile p = l ++ x := by
  cases l with
  | nil => exact absurd rfl hne
  | cons c t =>
    have hc := head_false_of_dropWhile_self p c t h
    rw [List.cons_append, List.dropWhile_cons, hc]
    simp

lemma dropWhile_eq_self_of_all_false (p : Char → Bool) (l : List Char)
    (h : ∀ c ∈ l, p c = false) : l.dropWhile p = l := by
  cases l with
  | nil => rfl
  | cons c t =>
    rw [List.dropWhile_cons, h c (List.mem_cons_self c t)]
    simp

lemma takeWhile_append_of_all (p : Char → Bool) (w x : List Char)
    (hw : ∀ c ∈ w, p c = true) : (w ++ x).takeWhile p = w ++ x.takeWhile p := by
  induction w with
  | nil => rfl
  | cons c t ih =>
    rw [List.cons_append, List.takeWhile_cons, hw c (List.mem_cons_self c t)]
    simp only [if_true]
    rw [ih (fun d hd => hw d (List.mem_cons_of_mem c hd))]
    rfl

lemma startsWithL_append_self : ∀ (w x : List Char), startsWithL w (w ++ x) = true
  | [], _ => rfl
  | c :: t, x => by
      show ((c == c) && startsWithL t (t ++ x)) = true
      rw [startsWithL_append_self t x]
      simp

lemma findSub_of_startsWith (needle : List Char) (c : Char) (cs : List Char)
    (h : startsWithL needle (c :: cs) = true) : findSub needle (c :: cs) = some 0 := by
  unfold findSub
  rw [h]
  simp

lemma pyStrip_cons_ws (l : List Char) : pyStrip (' ' :: l) = pyStrip l := by
  unfold pyStrip
  rw [List.dropWhile_cons]
  simp [isWS]

lemma pyStrip_no_strip (l : List Char) (h1 : l.dropWhile isWS = l)
    (h2 : l.reverse.dropWhile isWS = l.reverse) : pyStrip l = l := by
  unfold pyStrip
  rw [h1, h2, List.reverse_reverse]

lemma extractNote_remind_head (t : List Char) :
    extractNote (remindWord ++ ' ' :: t) =
      (if stripLeadToken (pyStrip t) = [] then none
       else some (stripLeadToken (pyStrip t))) := by
  have hne : remindWord ++ ' ' :: t ≠ [] := by simp [remindWord]
  have hmap : (remindWord ++ ' ' :: t).map Char.toLower
      = remindWord ++ (' ' :: t).map Char.toLower := by
    rw [List.map_append]
    rfl
  have hfind : findSub remindWord ((remindWord ++ ' ' :: t).map Char.toLower) = some 0 := by
    rw [hmap]
    exact findSub_of_startsWith _ _ _ (startsWithL_append_self remindWord _)
  have hdrop : (remindWord ++ ' ' :: t).drop (0 + 6) = ' ' :: t := rfl
  unfold extractNote
  rw [if_neg hne, hfind]
  show (let note := pyStrip ((remindWord ++ ' ' :: t).drop (0 + 6));
        let note2 := stripLeadToken note;
        if note2 = [] then none else some note2) = _
  rw [hdrop, pyStrip_cons_ws]

lemma matchGroupLen_word (w x : List Char) (hwne : w ≠ [])
    (hw : ∀ c ∈ w, isWordChar c = true)
    (hx : x.takeWhile isWordChar = [])
    (hme : ciStartsWith ['m', 'e'] (w ++ x) = false)
    (hus : ciStartsWith ['u', 's'] (w ++ x) = false)
    (hto : ciStartsWith ['t', 'o'] (w ++ x) = false) :
    matchGroupLen (w ++ x) = w.length := by
  unfold matchGroupLen
  simp only [hme, hus, hto, Bool.false_eq_true, if_false]
  cases w with
  | nil => exact absurd rfl hwne
  | cons c w' =>
    have hcw : isWordChar c = true := hw c (List.mem_cons_self _ _)
    have hc : c ≠ '@' := by
      intro h
      rw [h] at hcw
      exact absurd hcw (by decide)
    rw [List.cons_append]
    have hhead : ¬ ((c :: (w' ++ x)).head? = some '@') := by simp [hc]
    rw [if_neg hhead]
    rw [show (c :: (w' ++ x)) = (c :: w') ++ x from rfl,
      takeWhile_append_of_all isWordChar (c :: w') x hw, hx, List.append_nil]

/-- Claim C10 as amended: the substitution tries "me", "us", "to" before
the whole-word alternative, so only a word NOT beginning with one of those
is stripped whole — for such a word `w`, "remind w rest" saves exactly
"rest" (so "remind Bob to call" saves "to call" with "Bob" removed), and
"remind w" alone strips to nothing, extraction returns none and the
capture path saves no reminder.  (A word beginning with "me"/"us"/"to"
loses only those two characters: see the counterexample.) -/
theorem reminder_extraction_amended (w rest : List Char) :
    ((w ≠ [] ∧ (∀ c ∈ w, isWordChar c = true ∧ isWS c = false)
        ∧ ciStartsWith ['m', 'e'] (w ++ ' ' :: rest) = false
        ∧ ciStartsWith ['u', 's'] (w ++ ' ' :: rest) = false
        ∧ ciStartsWith ['t', 'o'] (w ++ ' ' :: rest) = false
        ∧ rest ≠ [] ∧ rest.dropWhile isWS = rest
        ∧ rest.reverse.dropWhile isWS = rest.reverse) →
      extractNote (remindWord ++ ' ' :: (w ++ ' ' :: rest)) = some rest)
    ∧ ((w ≠ [] ∧ (∀ c ∈ w, isWordChar c = true ∧ isWS c = false)
        ∧ ciStartsWith ['m', 'e'] w = false
        ∧ ciStartsWith ['u', 's'] w = false
        ∧ ciStartsWith ['t', 'o'] w = false) →
      extractNote (remindWord ++ ' ' :: w) = none)
    ∧ (∀ (bank : List (List Char)) (raw : List Char),
        extractNote raw = none → reminder_capture bank raw = bank) := by
  refine ⟨?_, ?_, ?_⟩
  · rintro ⟨hwne, hw, hme, hus, hto, hrne, hr1, hr2⟩
    rw [extractNote_remind_head]
    have hwdrop : w.dropWhile isWS = w :=
      dropWhile_eq_self_of_all_false _ _ (fun c hc => (hw c hc).2)
    have h1 : (w ++ ' ' :: rest).dropWhile isWS = w ++ ' ' :: rest :=
      dropWhile_append_self _ _ _ hwne hwdrop
    have hrevform : (w ++ ' ' :: rest).reverse = rest.reverse ++ (' ' :: w.reverse) := by
      rw [List.reverse_append, List.reverse_cons, List.append_assoc]
      rfl
    have hrevne : rest.reverse ≠ [] := by simpa using hrne
    have h2 : (w ++ ' ' :: rest).reverse.dropWhile isWS = (w ++ ' ' :: rest).reverse := by
      rw [hrevform]
      exact dropWhile_append_self _ _ _ hrevne hr2
    rw [pyStrip_no_strip _ h1 h2]
    have hx : (' ' :: rest).takeWhile isWordChar = [] := by
      rw [List.takeWhile_cons, if_neg (by decide)]
    have hmgl : matchGroupLen (w ++ ' ' :: rest) = w.length :=
      matchGroupLen_word w (' ' :: rest) hwne (fun c hc => (hw c hc).1) hx hme hus hto
    have hslt : stripLeadToken (w ++ ' ' :: rest) = rest := by
      unfold stripLeadToken
      rw [hmgl, List.drop_left, List.dropWhile_cons, if_pos (by decide), hr1]
    rw [hslt, if_neg hrne]
  · rintro ⟨hwne, hw, hme, hus, hto⟩
    rw [extractNote_remind_head]
    have h1 : w.dropWhile isWS = w :=
      dropWhile_eq_self_of_all_false _ _ (fun c hc => (hw c hc).2)
    have h2 : w.reverse.dropWhile isWS = w.reverse :=
      dropWhile_eq_self_of_all_false _ _
        (fun c hc => (hw c (List.mem_reverse.mp hc)).2)
    rw [pyStrip_no_strip _ h1 h2]
    have hme' : ciStartsWith ['m', 'e'] (w ++ []) = false := by rwa [List.append_nil]
    have hus' : ciStartsWith ['u', 's'] (w ++ []) = false := by rwa [List.append_nil]
    have hto' : ciStartsWith ['t', 'o'] (w ++ []) = false := by rwa [List.append_nil]
    have hmgl := matchGroupLen_word w [] hwne (fun c hc => (hw c hc).1) rfl hme' hus' hto'
    rw [List.append_nil] at hmgl
    have hslt : stripLeadToken w = [] := by
      unfold stripLeadToken
      rw [hmgl, List.drop_length]
      rfl
    rw [hslt, if_pos rfl]
  · intro bank raw h
    unfold reminder_capture
    rw [h]

/-- Witness for C10 (amended), at the claim's own example: "remind Bob to
call" saves "to call" (the whole word "Bob" removed), "remind Bob" saves
nothing, and a none extraction leaves the reminder bank unchanged. -/
theorem reminder_extraction_amended_witness :
    extractNote (remindWord ++ ' ' :: ("Bob".data ++ ' ' :: "to call".data))
      = some ("to call".data)
    ∧ extractNote (remindWord ++ ' ' :: "Bob".data) = none
    ∧ reminder_capture [] (remindWord ++ ' ' :: "Bob".data) = [] := by
  have h := reminder_extraction_amended ("Bob".data) ("to call".data)
  have h2 := h.2.1 (by decide)
  exact ⟨h.1 (by decide), h2, h.2.2 [] _ h2⟩
